import Mathlib

/-!
Verification of the GJSN import/export management system
(`src/imports_exports.py`) against its specification.

The Python code is shallowly embedded: Python strings are `List Char`,
monetary values are `ℚ`, dates are `Int` (only their linear order is used by
the core), and Python truthiness tests (`if min_value:`, `if country:` …) are
made explicit.  A value that may be a number or a string at runtime (the
`min_value` / `max_value` filter bounds, which the test suite exercises with
strings) is a `PyVal`; a Python `TypeError` arising from comparing a float
with a string is an `Except.error`.
-/

/-- ASCII lowercasing of one character, the fragment of Python's
`str.lower` relevant to the data. -/
def pyLowerChar (c : Char) : Char :=
  if 'A' ≤ c ∧ c ≤ 'Z' then Char.ofNat (c.toNat + 32) else c

/-- Python `str.lower` on a string represented as a list of characters. -/
def pyLower (s : List Char) : List Char :=
  s.map pyLowerChar

/-- The characters Python's `str.strip()` removes (ASCII whitespace). -/
def isPySpace (c : Char) : Bool :=
  c = ' ' || c = '\t' || c = '\n' || c = '\r' || c = Char.ofNat 11 || c = Char.ofNat 12

/-- Python `str.strip()`: drop leading and trailing whitespace. -/
def pyStrip (s : List Char) : List Char :=
  ((s.dropWhile isPySpace).reverse.dropWhile isPySpace).reverse

/-- A dynamically typed Python value appearing as a filter bound:
either a number or a string. -/
inductive PyVal where
  | num (q : ℚ)
  | str (s : List Char)
deriving DecidableEq

/-- Python truthiness of a `PyVal`: `0` and `""` are falsy. -/
def PyVal.truthy : PyVal → Bool
  | .num q => decide (q ≠ 0)
  | .str s => decide (s ≠ [])

/-- The `Transaction` class.  Field order follows `Transaction.__init__`:
`(transaction_ID, product, country, value, date)`. -/
structure Transaction where
  transaction_ID : List Char
  product : List Char
  country : List Char
  value : ℚ
  date : Int
deriving DecidableEq

/-- The `max_value` clause of `filter_transactions`:
`if max_value and t.value > max_value: continue`.
A truthy string bound makes the comparison raise `TypeError`. -/
def checkMax (mx : Option PyVal) (t : Transaction) : Except Unit Bool :=
  match mx with
  | none => .ok true
  | some (.num m) => if decide (m ≠ 0) then .ok (decide (¬ t.value > m)) else .ok true
  | some (.str s) => if decide (s ≠ []) then .error () else .ok true

/-- The `min_value` clause of `filter_transactions`
(`if min_value and t.value < min_value: continue`) followed by the
`max_value` clause, in the source's evaluation order. -/
def checkMin (mn mx : Option PyVal) (t : Transaction) : Except Unit Bool :=
  match mn with
  | none => checkMax mx t
  | some (.num m) =>
    if decide (m ≠ 0) then
      if decide (t.value < m) then .ok false else checkMax mx t
    else checkMax mx t
  | some (.str s) => if decide (s ≠ []) then .error () else checkMax mx t

/-- The date test of the loop (`start_date <= t.date <= end_date`),
inclusive on both ends; an absent range imposes no constraint. -/
def matchesDate (dr : Option (Int × Int)) (t : Transaction) : Bool :=
  match dr with
  | some (sd, ed) => decide (sd ≤ t.date ∧ t.date ≤ ed)
  | none => true

/-- The country `continue`-condition:
`country and t.country.lower() != country.lower()` — a provided empty
string is falsy and never skips. -/
def countrySkip (co : Option (List Char)) (t : Transaction) : Bool :=
  match co with
  | some c => decide (c ≠ []) && decide (pyLower t.country ≠ pyLower c)
  | none => false

/-- The product `continue`-condition, symmetric to the country one. -/
def productSkip (pr : Option (List Char)) (t : Transaction) : Bool :=
  match pr with
  | some p => decide (p ≠ []) && decide (pyLower t.product ≠ pyLower p)
  | none => false

/-- The body of the `for t in self.transactions` loop of
`filter_transactions`, deciding whether `t` is appended:
date-range, country and product checks happen (in that order) before the
value comparisons, so a record rejected early never triggers a
`TypeError` from a string-typed bound. -/
def checkRecord (dr : Option (Int × Int)) (co pr : Option (List Char))
    (mn mx : Option PyVal) (t : Transaction) : Except Unit Bool :=
  if !matchesDate dr t then .ok false
  else if countrySkip co t then .ok false
  else if productSkip pr t then .ok false
  else checkMin mn mx t

/-- Embedding of `ImportExportSystem.filter_transactions`.  The loop appends the records
passing every check, in input order; a `TypeError` raised while checking a
record propagates out of the whole call. -/
def filterTransactions (transactions : List Transaction) (dr : Option (Int × Int))
    (co pr : Option (List Char)) (mn mx : Option PyVal) : Except Unit (List Transaction) :=
  match transactions with
  | [] => .ok []
  | t :: rest =>
    match checkRecord dr co pr mn mx t with
    | .error e => .error e
    | .ok keep =>
      match filterTransactions rest dr co pr mn mx with
      | .error e => .error e
      | .ok others => .ok (if keep then t :: others else others)

/-- When every per-record check succeeds and computes the predicate `p`,
the whole filter succeeds and equals `List.filter p`. -/
theorem filterTransactions_ok (dr : Option (Int × Int)) (co pr : Option (List Char))
    (mn mx : Option PyVal) (p : Transaction → Bool)
    (h : ∀ t, checkRecord dr co pr mn mx t = .ok (p t)) :
    ∀ l : List Transaction, filterTransactions l dr co pr mn mx = .ok (l.filter p) := by
  intro l
  induction l with
  | nil => rfl
  | cons t rest ih =>
    simp only [filterTransactions, h t, ih, List.filter_cons]

/-- Embedding of `ImportExportSystem.add_transaction`.  The source constructs
`Transaction(transaction_ID, country, product, value, date)` positionally,
although `Transaction.__init__` declares the order
`(transaction_ID, product, country, value, date)`; the positional call is
kept verbatim, so the `country` argument lands in the `product` field and
the `product` argument in the `country` field. -/
def addTransaction (transactions : List Transaction) (transaction_ID country product : List Char)
    (value : ℚ) (date : Int) : List Transaction :=
  transactions ++ [Transaction.mk transaction_ID country product value date]

/-- The body of `update_transaction` once the matching record is found:
each field is overwritten only when its argument is truthy (`if country:` …),
so `None`, the empty string and the number `0` all leave the field alone;
a provided date (a `datetime`, always truthy in Python) always overwrites. -/
def applyUpdates (t : Transaction) (country product : Option (List Char))
    (value : Option ℚ) (date : Option Int) : Transaction :=
  let t1 := match country with
    | some c => if c = [] then t else { t with country := c }
    | none => t
  let t2 := match product with
    | some p => if p = [] then t1 else { t1 with product := p }
    | none => t1
  let t3 := match value with
    | some v => if v = 0 then t2 else { t2 with value := v }
    | none => t2
  match date with
  | some d => { t3 with date := d }
  | none => t3

/-- Embedding of `ImportExportSystem.update_transaction`: scan for the first record whose
`transaction_ID` equals the argument exactly, update it and return `True`;
return `False` (and change nothing) when no record matches. -/
def updateTransaction (transactions : List Transaction) (transaction_ID : List Char)
    (country product : Option (List Char)) (value : Option ℚ) (date : Option Int) :
    List Transaction × Bool :=
  match transactions with
  | [] => ([], false)
  | t :: rest =>
    if t.transaction_ID = transaction_ID then
      (applyUpdates t country product value date :: rest, true)
    else
      let result := updateTransaction rest transaction_ID country product value date
      (t :: result.1, result.2)

/-- Embedding of `ImportExportSystem.delete_transaction`: remove the first record whose
`transaction_ID` equals the argument exactly; return whether one was
removed. -/
def deleteTransaction (transactions : List Transaction) (transaction_ID : List Char) :
    List Transaction × Bool :=
  match transactions with
  | [] => ([], false)
  | t :: rest =>
    if t.transaction_ID = transaction_ID then (rest, true)
    else
      let result := deleteTransaction rest transaction_ID
      (t :: result.1, result.2)

/-- Embedding of `ImportExportSystem.search_transaction_by_id`: first exact match or
`None`. -/
def searchTransactionById (transactions : List Transaction) (transaction_ID : List Char) :
    Option Transaction :=
  match transactions with
  | [] => none
  | t :: rest =>
    if t.transaction_ID = transaction_ID then some t
    else searchTransactionById rest transaction_ID

/-- Embedding of `ImportExportSystem.total_trade_value`: a running sum starting at `0`. -/
def totalTradeValue (transactions : List Transaction) : ℚ :=
  transactions.foldl (fun total_value t => total_value + t.value) 0

/-- Embedding of `ImportExportSystem.generate_transaction_summary`: the triple
`[total_transactions, total_value, average_value]`, where the average is `0`
unless the count is nonzero (`if total_transactions:` guards the division). -/
def generateTransactionSummary (transactions : List Transaction) : ℕ × ℚ × ℚ :=
  let total_transactions := transactions.length
  let total_value := totalTradeValue transactions
  let average_value := if total_transactions ≠ 0 then total_value / (total_transactions : ℚ) else 0
  (total_transactions, total_value, average_value)

/-- The key order used by `sorted(transactions, key=lambda x: x.value)`. -/
def ascRel (a b : Transaction) : Prop := a.value ≤ b.value

/-- The key order used by `sorted(..., reverse=True)`: Python documents
`reverse` as sorting "as if each comparison were reversed", stably. -/
def descRel (a b : Transaction) : Prop := b.value ≤ a.value

instance : DecidableRel ascRel :=
  fun a b => inferInstanceAs (Decidable (a.value ≤ b.value))

instance : DecidableRel descRel :=
  fun a b => inferInstanceAs (Decidable (b.value ≤ a.value))

/-- Embedding of `ImportExportSystem.sort_transactions_by_value`: Python's `sorted` is a
stable sort by the key, with `reverse=descending`; it is embedded as the
stable insertion sort over the corresponding total preorder on records. -/
def sortTransactionsByValue (transactions : List Transaction) (descending : Bool) :
    List Transaction :=
  if descending then List.insertionSort descRel transactions
  else List.insertionSort ascRel transactions

/-- One CSV row as consumed by the reporting functions
(`csv.DictReader`): only the three columns they read are modelled. -/
structure Row where
  Country : List Char
  Category : List Char
  Import_Export : List Char
deriving DecidableEq

/-- Embedding of the module-level constant `PRODUCT_CATEGORIES`. -/
def PRODUCT_CATEGORIES : List (List Char) :=
  ["Clothing".toList, "Electronics".toList, "Furniture".toList,
   "Machinery".toList, "Toys".toList]

/-- Model of `defaultdict(int)` with `d[k] += 1`, as a total function defaulting
to `0`. -/
def bump (f : List Char → ℕ) (k : List Char) : List Char → ℕ :=
  fun c => if c = k then f k + 1 else f c

/-- Loop body of `get_imports_exports_per_country`. -/
def perCountryStep (country_name : List Char) (acc : ℕ × ℕ) (row : Row) : ℕ × ℕ :=
  if pyLower (pyStrip row.Country) = pyLower (pyStrip country_name) then
    if pyLower (pyStrip row.Import_Export) = "import".toList then (acc.1 + 1, acc.2)
    else if pyLower (pyStrip row.Import_Export) = "export".toList then (acc.1, acc.2 + 1)
    else acc
  else acc

/-- Embedding of `get_imports_exports_per_country`: counts of import rows and export rows
for the given country. -/
def getImportsExportsPerCountry (rows : List Row) (country_name : List Char) : ℕ × ℕ :=
  rows.foldl (perCountryStep country_name) (0, 0)

/-- Loop body of `get_category_counts`. -/
def categoryCountsStep (country_name : List Char)
    (acc : (List Char → ℕ) × (List Char → ℕ)) (row : Row) :
    (List Char → ℕ) × (List Char → ℕ) :=
  if pyLower (pyStrip row.Country) = pyLower (pyStrip country_name) then
    let category := pyStrip row.Category
    if category ∈ PRODUCT_CATEGORIES then
      if pyLower (pyStrip row.Import_Export) = "import".toList then (bump acc.1 category, acc.2)
      else if pyLower (pyStrip row.Import_Export) = "export".toList then (acc.1, bump acc.2 category)
      else acc
    else acc
  else acc

/-- Embedding of `get_category_counts`: per-category import and export tallies for the
given country, restricted to `PRODUCT_CATEGORIES`. -/
def getCategoryCounts (rows : List Row) (country_name : List Char) :
    (List Char → ℕ) × (List Char → ℕ) :=
  rows.foldl (categoryCountsStep country_name) (fun _ => 0, fun _ => 0)

/-- Loop body of `get_total_import_export_counts`; the tally key is the
stripped (but not lowercased) country. -/
def totalCountsStep (acc : (List Char → ℕ) × (List Char → ℕ)) (row : Row) :
    (List Char → ℕ) × (List Char → ℕ) :=
  let country := pyStrip row.Country
  if pyLower (pyStrip row.Import_Export) = "import".toList then (bump acc.1 country, acc.2)
  else if pyLower (pyStrip row.Import_Export) = "export".toList then (acc.1, bump acc.2 country)
  else acc

/-- Embedding of `get_total_import_export_counts`: per-country import and export tallies
over all rows. -/
def getTotalImportExportCounts (rows : List Row) : (List Char → ℕ) × (List Char → ℕ) :=
  rows.foldl totalCountsStep (fun _ => 0, fun _ => 0)

/-- A sample record with a negative value, exercising the zero-bound edge. -/
def tNeg : Transaction :=
  { transaction_ID := "1".toList, product := "P".toList, country := "USA".toList,
    value := -5, date := 0 }

/-- A sample record matching the test fixture's first transaction. -/
def tUSA : Transaction :=
  { transaction_ID := "1".toList, product := "Electronics".toList, country := "USA".toList,
    value := 1000, date := 1 }

/-- A second sample record, with a distinct id and value. -/
def tA : Transaction :=
  { transaction_ID := "A".toList, product := "Gadget".toList, country := "Canada".toList,
    value := 7, date := 3 }

/-- A third sample record, with a distinct id and value. -/
def tB : Transaction :=
  { transaction_ID := "B".toList, product := "Widget".toList, country := "Mexico".toList,
    value := 9, date := 4 }

/-- With no date, country or product criterion, the per-record check is just
the value checks. -/
theorem checkRecord_none (mn mx : Option PyVal) (t : Transaction) :
    checkRecord none none none mn mx t = checkMin mn mx t := rfl

/-- C1, counterexample: with `min_value = 0` the bound is falsy, so a record
with negative value is NOT excluded — `filter_transactions` returns it. -/
theorem min_value_zero_admits_negative_counterexample :
    filterTransactions [tNeg] none none none (some (.num 0)) none = .ok [tNeg]
    ∧ tNeg.value < 0 :=
  ⟨rfl, by decide⟩

/-- C1 (amended): a nonzero `min_value = m` keeps exactly the records with
`value ≥ m`, a nonzero `max_value = M` keeps exactly those with
`value ≤ M`, and a bound of exactly `0` is treated as absent (no
constraint), so it does not exclude negative values. -/
theorem filter_value_bounds (l : List Transaction) (m M : ℚ) (hm : m ≠ 0) (hM : M ≠ 0) :
    filterTransactions l none none none (some (.num m)) none
      = .ok (l.filter (fun t => decide (m ≤ t.value)))
    ∧ filterTransactions l none none none none (some (.num M))
      = .ok (l.filter (fun t => decide (t.value ≤ M)))
    ∧ filterTransactions l none none none (some (.num 0)) none = .ok l := by
  refine ⟨?_, ?_, ?_⟩
  · apply filterTransactions_ok
    intro t
    rw [checkRecord_none]
    simp only [checkMin, checkMax, hm, decide_not, if_pos (decide_eq_true hm)]
    by_cases hv : t.value < m
    · simp [hv, not_le_of_lt hv]
    · simp [hv, le_of_not_lt hv]
  · apply filterTransactions_ok
    intro t
    rw [checkRecord_none]
    simp only [checkMin, checkMax]
    rw [if_pos (decide_eq_true hM)]
    have : (¬ t.value > M) ↔ t.value ≤ M := not_lt
    simp [this]
  · have h := filterTransactions_ok none none none (some (.num 0)) none (fun _ => true)
      (fun t => rfl) l
    simpa using h

/-- C1, witness of the amended theorem at concrete inputs. -/
theorem filter_value_bounds_witness :
    filterTransactions [tNeg] none none none (some (.num 1)) none
      = .ok ([tNeg].filter (fun t => decide ((1 : ℚ) ≤ t.value)))
    ∧ filterTransactions [tNeg] none none none none (some (.num 1))
      = .ok ([tNeg].filter (fun t => decide (t.value ≤ (1 : ℚ))))
    ∧ filterTransactions [tNeg] none none none (some (.num 0)) none = .ok [tNeg] :=
  filter_value_bounds [tNeg] 1 1 (by decide) (by decide)

/-- C2: `add_transaction` appends exactly one record at the end and leaves
the existing records unchanged, but the positional construction swaps the
`country` and `product` arguments into each other's fields; at the
concrete input of the test suite, `add_transaction("6", "Brazil",
"Coffee", …)` stores `product = "Brazil"` and `country = "Coffee"`. -/
theorem add_transaction_swaps_product_and_country (l : List Transaction)
    (transaction_ID country product : List Char) (value : ℚ) (date : Int) :
    addTransaction l transaction_ID country product value date
      = l ++ [{ transaction_ID := transaction_ID, product := country, country := product,
                value := value, date := date }]
    ∧ (addTransaction l transaction_ID country product value date).length = l.length + 1
    ∧ addTransaction [] ("6".toList) ("Brazil".toList) ("Coffee".toList) 500 10
      = [{ transaction_ID := "6".toList, product := "Brazil".toList,
           country := "Coffee".toList, value := 500, date := 10 }] := by
  refine ⟨rfl, ?_, rfl⟩
  simp [addTransaction]

/-- C4, counterexample: with an empty store a string bound raises nothing
and zero records are silently returned, and an empty-string bound is falsy,
so all records are silently returned. -/
theorem string_bound_no_error_counterexample :
    filterTransactions [] none none none (some (.str ("x".toList))) none = .ok []
    ∧ filterTransactions [tUSA] none none none (some (.str [])) none = .ok [tUSA] :=
  ⟨rfl, rfl⟩

/-- C4 (amended): on a non-empty store, a non-empty string `min_value` or
`max_value` bound makes `filter_transactions` raise `TypeError`. -/
theorem filter_string_bound_raises (l : List Transaction) (s : List Char)
    (hl : l ≠ []) (hs : s ≠ []) :
    filterTransactions l none none none (some (.str s)) none = .error ()
    ∧ filterTransactions l none none none none (some (.str s)) = .error () := by
  rcases l with _ | ⟨t, rest⟩
  · exact absurd rfl hl
  · constructor <;>
      simp [filterTransactions, checkRecord_none, checkMin, checkMax, hs]

/-- C4, witness of the amended theorem at concrete inputs. -/
theorem filter_string_bound_raises_witness :
    filterTransactions [tUSA] none none none (some (.str ("x".toList))) none = .error ()
    ∧ filterTransactions [tUSA] none none none none (some (.str ("x".toList))) = .error () :=
  filter_string_bound_raises [tUSA] ("x".toList) (by decide) (by decide)

/-- Folding the running sum from any seed adds the list's total. -/
theorem foldl_add_value (l : List Transaction) :
    ∀ a : ℚ, l.foldl (fun total_value t => total_value + t.value) a
      = a + (l.map Transaction.value).sum := by
  induction l with
  | nil => intro a; simp
  | cons t rest ih =>
    intro a
    simp [ih, add_assoc]

/-- C6: the summary is `[count, total, average]` with `count` the length,
`total` the sum of values (equal to `total_trade_value`, `0` when empty),
and `average = total / count` guarded to `0` on the empty sequence. -/
theorem summary_characterization (l : List Transaction) :
    (generateTransactionSummary l).1 = l.length
    ∧ (generateTransactionSummary l).2.1 = totalTradeValue l
    ∧ totalTradeValue l = (l.map Transaction.value).sum
    ∧ totalTradeValue [] = 0
    ∧ (l.length ≠ 0 →
        (generateTransactionSummary l).2.2 = totalTradeValue l / (l.length : ℚ))
    ∧ (l.length = 0 → (generateTransactionSummary l).2.2 = 0)
    ∧ generateTransactionSummary [] = (0, 0, 0) := by
  refine ⟨rfl, rfl, ?_, rfl, ?_, ?_, rfl⟩
  · simpa using foldl_add_value l 0
  · intro h
    simp [generateTransactionSummary, h]
  · intro h
    simp [generateTransactionSummary, h]

/-- C6, witness at a concrete singleton list. -/
theorem summary_characterization_witness :
    (generateTransactionSummary [tA]).2.2 = totalTradeValue [tA] / (([tA].length : ℕ) : ℚ) :=
  (summary_characterization [tA]).2.2.2.2.1 (by decide)

/-- Country criterion semantics as the code implements it: a provided empty
string is falsy and imposes no constraint; otherwise case-insensitive exact
match. -/
def matchesCountry (co : Option (List Char)) (t : Transaction) : Bool :=
  match co with
  | some c => decide (c = []) || decide (pyLower t.country = pyLower c)
  | none => true

/-- Product criterion semantics, symmetric to the country criterion. -/
def matchesProduct (pr : Option (List Char)) (t : Transaction) : Bool :=
  match pr with
  | some p => decide (p = []) || decide (pyLower t.product = pyLower p)
  | none => true

/-- Minimum-value criterion semantics as implemented: a bound of `0` is
falsy and imposes no constraint; otherwise the record needs `value ≥ m`. -/
def matchesMin (mn : Option ℚ) (t : Transaction) : Bool :=
  match mn with
  | some m => decide (m = 0) || decide (m ≤ t.value)
  | none => true

/-- Maximum-value criterion semantics as implemented: a bound of `0` is
falsy; otherwise the record needs `value ≤ M`. -/
def matchesMax (mx : Option ℚ) (t : Transaction) : Bool :=
  match mx with
  | some M => decide (M = 0) || decide (t.value ≤ M)
  | none => true

/-- Conjunction of all five criteria. -/
def matchesCriteria (dr : Option (Int × Int)) (co pr : Option (List Char))
    (mn mx : Option ℚ) (t : Transaction) : Bool :=
  matchesDate dr t
    && (matchesCountry co t
      && (matchesProduct pr t && (matchesMin mn t && matchesMax mx t)))

/-- With a numeric (or absent) bound the `max_value` clause never errors
and computes `matchesMax`. -/
theorem checkMax_ok_num (mx : Option ℚ) (t : Transaction) :
    checkMax (mx.map PyVal.num) t = .ok (matchesMax mx t) := by
  rcases mx with _ | M
  · rfl
  · by_cases hM : M = 0
    · subst hM; simp [checkMax, matchesMax]
    · have hd : (decide (¬ t.value > M)) = (decide (t.value ≤ M)) :=
        decide_eq_decide.mpr not_lt
      simp [checkMax, matchesMax, hM, hd]

/-- With numeric (or absent) bounds the value clauses never error and
compute `matchesMin && matchesMax`. -/
theorem checkMin_ok_num (mn mx : Option ℚ) (t : Transaction) :
    checkMin (mn.map PyVal.num) (mx.map PyVal.num) t
      = .ok (matchesMin mn t && matchesMax mx t) := by
  rcases mn with _ | m
  · simp [checkMin, matchesMin, checkMax_ok_num]
  · by_cases hm : m = 0
    · subst hm; simp [checkMin, matchesMin, checkMax_ok_num]
    · by_cases hv : t.value < m
      · simp [checkMin, matchesMin, hm, hv, not_le_of_lt hv]
      · simp [checkMin, matchesMin, hm, hv, le_of_not_lt hv, checkMax_ok_num]

/-- The `continue`-chain of the loop body as one Boolean conjunction. -/
theorem ok_of_skip_chain (a b c : Bool) (rest : Except Unit Bool) (v : Bool)
    (h : rest = .ok v) :
    (if !a then (Except.ok false : Except Unit Bool)
     else if b then .ok false
     else if c then .ok false
     else rest)
    = .ok (a && (!b && (!c && v))) := by
  cases a <;> cases b <;> cases c <;> simp [h]

/-- With numeric (or absent) bounds the whole per-record check computes
`matchesCriteria`. -/
theorem checkRecord_ok_num (dr : Option (Int × Int)) (co pr : Option (List Char))
    (mn mx : Option ℚ) (t : Transaction) :
    checkRecord dr co pr (mn.map PyVal.num) (mx.map PyVal.num) t
      = .ok (matchesCriteria dr co pr mn mx t) := by
  have h2 : countrySkip co t = !matchesCountry co t := by
    rcases co with _ | c
    · rfl
    · simp [countrySkip, matchesCountry, decide_not]
  have h3 : productSkip pr t = !matchesProduct pr t := by
    rcases pr with _ | p
    · rfl
    · simp [productSkip, matchesProduct, decide_not]
  rw [checkRecord, h2, h3, ok_of_skip_chain _ _ _ _ _ (checkMin_ok_num mn mx t)]
  simp [matchesCriteria]

/-- C3, counterexample: an empty-string country criterion is provided yet
imposes no constraint — the record is returned although its country does
not equal the criterion case-insensitively. -/
theorem filter_empty_country_criterion_counterexample :
    filterTransactions [tUSA] none (some []) none none none = .ok [tUSA]
    ∧ pyLower tUSA.country ≠ pyLower [] :=
  ⟨rfl, by decide⟩

/-- C3 (amended): with absent-or-truthy criteria (numeric bounds are
constraints only when nonzero, string criteria only when non-empty), the
filter keeps exactly the records satisfying the conjunction of the criteria,
in input order; with no criteria it returns the input unchanged; the date
range is inclusive on both ends. -/
theorem filter_conjunction_characterization (l : List Transaction)
    (dr : Option (Int × Int)) (co pr : Option (List Char)) (mn mx : Option ℚ) :
    filterTransactions l dr co pr (mn.map PyVal.num) (mx.map PyVal.num)
      = .ok (l.filter (matchesCriteria dr co pr mn mx))
    ∧ filterTransactions l none none none none none = .ok l
    ∧ (∀ sd ed : Int, filterTransactions l (some (sd, ed)) none none none none
        = .ok (l.filter (fun t => decide (sd ≤ t.date ∧ t.date ≤ ed)))) := by
  refine ⟨?_, ?_, ?_⟩
  · exact filterTransactions_ok _ _ _ _ _ _ (checkRecord_ok_num dr co pr mn mx) l
  · have h := filterTransactions_ok none none none none none (fun _ => true)
      (fun _ => rfl) l
    simpa using h
  · intro sd ed
    apply filterTransactions_ok
    intro u
    have hh := checkRecord_ok_num (some (sd, ed)) none none none none u
    simpa [matchesCriteria, matchesDate, matchesCountry, matchesProduct,
      matchesMin, matchesMax] using hh

/-- Update/delete on a list in which no record carries the searched id:
nothing changes and `False` is returned. -/
theorem update_delete_no_match (transaction_ID : List Char)
    (co pr : Option (List Char)) (v : Option ℚ) (d : Option Int) :
    ∀ m : List Transaction, (∀ u ∈ m, u.transaction_ID ≠ transaction_ID) →
      updateTransaction m transaction_ID co pr v d = (m, false)
      ∧ deleteTransaction m transaction_ID = (m, false) := by
  intro m
  induction m with
  | nil => exact fun _ => ⟨rfl, rfl⟩
  | cons u rest ih =>
    intro h
    have hu : u.transaction_ID ≠ transaction_ID := h u (List.mem_cons_self u rest)
    have hrest := ih fun x hx => h x (List.mem_cons_of_mem u hx)
    constructor
    · simp [updateTransaction, hu, hrest.1]
    · simp [deleteTransaction, hu, hrest.2]

/-- Field-by-field description of the truthiness-guarded update. -/
theorem applyUpdates_fields (t : Transaction) (co pr : Option (List Char))
    (v : Option ℚ) (d : Option Int) :
    (applyUpdates t co pr v d).transaction_ID = t.transaction_ID
    ∧ (applyUpdates t co pr v d).country
        = (match co with | some c => if c = [] then t.country else c | none => t.country)
    ∧ (applyUpdates t co pr v d).product
        = (match pr with | some p => if p = [] then t.product else p | none => t.product)
    ∧ (applyUpdates t co pr v d).value
        = (match v with | some x => if x = 0 then t.value else x | none => t.value)
    ∧ (applyUpdates t co pr v d).date
        = (match d with | some x => x | none => t.date) := by
  rcases co with _ | c <;> rcases pr with _ | p <;> rcases v with _ | x <;>
    rcases d with _ | y <;>
    refine ⟨?_, ?_, ?_, ?_, ?_⟩ <;>
    simp only [applyUpdates, apply_ite Transaction.transaction_ID,
      apply_ite Transaction.country, apply_ite Transaction.product,
      apply_ite Transaction.value, apply_ite Transaction.date] <;>
    split_ifs <;> rfl

/-- C5, counterexample: a provided `value` of `0` is non-null yet is not
written — the record keeps its old value although the update reports
success. -/
theorem update_zero_value_counterexample :
    updateTransaction [tUSA] ("1".toList) none none (some 0) none = ([tUSA], true)
    ∧ tUSA.value ≠ 0 :=
  ⟨rfl, by decide⟩

/-- C5 (amended): update and delete return `True` exactly when a record
with the exact (case-sensitive) id exists, change nothing when they return
`False`, and act on the first matching record only; update overwrites
exactly the truthy provided fields — non-empty strings, a nonzero value,
any provided date — leaving omitted, empty or zero fields and all other
records unchanged. -/
theorem update_delete_first_match (l₁ l₂ : List Transaction) (t : Transaction)
    (transaction_ID : List Char) (co pr : Option (List Char)) (v : Option ℚ)
    (d : Option Int)
    (h₁ : ∀ u ∈ l₁, u.transaction_ID ≠ transaction_ID)
    (h₂ : t.transaction_ID = transaction_ID) :
    updateTransaction (l₁ ++ t :: l₂) transaction_ID co pr v d
      = (l₁ ++ applyUpdates t co pr v d :: l₂, true)
    ∧ deleteTransaction (l₁ ++ t :: l₂) transaction_ID = (l₁ ++ l₂, true)
    ∧ (applyUpdates t co pr v d).transaction_ID = t.transaction_ID
    ∧ (applyUpdates t co pr v d).country
        = (match co with | some c => if c = [] then t.country else c | none => t.country)
    ∧ (applyUpdates t co pr v d).product
        = (match pr with | some p => if p = [] then t.product else p | none => t.product)
    ∧ (applyUpdates t co pr v d).value
        = (match v with | some x => if x = 0 then t.value else x | none => t.value)
    ∧ (applyUpdates t co pr v d).date
        = (match d with | some x => x | none => t.date)
    ∧ (∀ m : List Transaction, (∀ u ∈ m, u.transaction_ID ≠ transaction_ID) →
        updateTransaction m transaction_ID co pr v d = (m, false)
        ∧ deleteTransaction m transaction_ID = (m, false)) := by
  have hfields := applyUpdates_fields t co pr v d
  refine ⟨?_, ?_, hfields.1, hfields.2.1, hfields.2.2.1, hfields.2.2.2.1,
    hfields.2.2.2.2, update_delete_no_match transaction_ID co pr v d⟩
  · induction l₁ with
    | nil => simp [updateTransaction, h₂]
    | cons u rest ih =>
      have hu : u.transaction_ID ≠ transaction_ID := h₁ u (List.mem_cons_self u rest)
      have := ih fun x hx => h₁ x (List.mem_cons_of_mem u hx)
      simp [updateTransaction, hu, this]
  · induction l₁ with
    | nil => simp [deleteTransaction, h₂]
    | cons u rest ih =>
      have hu : u.transaction_ID ≠ transaction_ID := h₁ u (List.mem_cons_self u rest)
      have := ih fun x hx => h₁ x (List.mem_cons_of_mem u hx)
      simp [deleteTransaction, hu, this]

/-- C5, witness of the amended theorem at concrete inputs. -/
theorem update_delete_first_match_witness :
    updateTransaction [tA, tB] ("B".toList) (some ("UK".toList)) none (some 0) none
      = ([tA, applyUpdates tB (some ("UK".toList)) none (some 0) none], true) :=
  (update_delete_first_match [tA] [] tB ("B".toList) (some ("UK".toList)) none (some 0)
    none (by decide) (by decide)).1

/-- Lowercasing preserves length. -/
theorem length_eq_of_pyLower_eq (s t : List Char) (h : pyLower s = pyLower t) :
    s.length = t.length := by
  have hlen := congrArg List.length h
  simpa [pyLower] using hlen

/-- Two per-record checks that agree on every record filter identically. -/
theorem filterTransactions_congr (dr dr' : Option (Int × Int))
    (co co' pr pr' : Option (List Char)) (mn mn' mx mx' : Option PyVal)
    (h : ∀ u, checkRecord dr co pr mn mx u = checkRecord dr' co' pr' mn' mx' u) :
    ∀ l : List Transaction,
      filterTransactions l dr co pr mn mx = filterTransactions l dr' co' pr' mn' mx' := by
  intro l
  induction l with
  | nil => rfl
  | cons t rest ih => simp only [filterTransactions, h t, ih]

/-- Replacing a country criterion by one with the same lowercasing leaves
the per-record check unchanged. -/
theorem checkRecord_congr_country (dr : Option (Int × Int)) (pr : Option (List Char))
    (mn mx : Option PyVal) (s t : List Char) (h : pyLower s = pyLower t)
    (u : Transaction) :
    checkRecord dr (some s) pr mn mx u = checkRecord dr (some t) pr mn mx u := by
  have hne : (s ≠ []) ↔ (t ≠ []) := not_congr (by
    rw [← List.length_eq_zero, ← List.length_eq_zero, length_eq_of_pyLower_eq s t h])
  simp only [checkRecord, countrySkip, h, decide_eq_decide.mpr hne]

/-- Replacing a product criterion by one with the same lowercasing leaves
the per-record check unchanged. -/
theorem checkRecord_congr_product (dr : Option (Int × Int)) (co : Option (List Char))
    (mn mx : Option PyVal) (s t : List Char) (h : pyLower s = pyLower t)
    (u : Transaction) :
    checkRecord dr co (some s) mn mx u = checkRecord dr co (some t) mn mx u := by
  have hne : (s ≠ []) ↔ (t ≠ []) := not_congr (by
    rw [← List.length_eq_zero, ← List.length_eq_zero, length_eq_of_pyLower_eq s t h])
  simp only [checkRecord, productSkip, h, decide_eq_decide.mpr hne]

/-- C8: country and product criteria that differ only in letter case filter
identically, whatever the other criteria are, and a non-empty criterion
matches a record exactly when the whole lowercased strings are equal (an
exact full-string comparison, not a substring one). -/
theorem filter_case_insensitive (l : List Transaction) (dr : Option (Int × Int))
    (co pr : Option (List Char)) (mn mx : Option PyVal) (s t : List Char)
    (h : pyLower s = pyLower t) :
    filterTransactions l dr (some s) pr mn mx = filterTransactions l dr (some t) pr mn mx
    ∧ filterTransactions l dr co (some s) mn mx = filterTransactions l dr co (some t) mn mx
    ∧ (s ≠ [] → filterTransactions l none (some s) none none none
        = .ok (l.filter (fun r => decide (pyLower r.country = pyLower s))))
    ∧ (s ≠ [] → filterTransactions l none none (some s) none none
        = .ok (l.filter (fun r => decide (pyLower r.product = pyLower s)))) := by
  refine ⟨filterTransactions_congr _ _ _ _ _ _ _ _ _ _
      (checkRecord_congr_country dr pr mn mx s t h) l,
    filterTransactions_congr _ _ _ _ _ _ _ _ _ _
      (checkRecord_congr_product dr co mn mx s t h) l, ?_, ?_⟩
  · intro hs
    apply filterTransactions_ok
    intro u
    have hh := checkRecord_ok_num none (some s) none none none u
    simpa [matchesCriteria, matchesDate, matchesCountry, matchesProduct,
      matchesMin, matchesMax, hs] using hh
  · intro hs
    apply filterTransactions_ok
    intro u
    have hh := checkRecord_ok_num none none (some s) none none u
    simpa [matchesCriteria, matchesDate, matchesCountry, matchesProduct,
      matchesMin, matchesMax, hs] using hh

/-- C8, witness: `country="usa"` and `country="USA"` agree on a concrete
store. -/
theorem filter_case_insensitive_witness :
    filterTransactions [tUSA] none (some ("usa".toList)) none none none
      = filterTransactions [tUSA] none (some ("USA".toList)) none none none :=
  (filter_case_insensitive [tUSA] none none none none none ("usa".toList)
    ("USA".toList) (by decide)).1

/-- Strict comparison of records by value. -/
def valueLt (a b : Transaction) : Prop := a.value < b.value

instance : IsTotal Transaction ascRel := ⟨fun a b => le_total a.value b.value⟩

instance : IsTrans Transaction ascRel := ⟨fun _ _ _ h h' => le_trans h h'⟩

instance : IsTotal Transaction descRel := ⟨fun a b => le_total b.value a.value⟩

instance : IsTrans Transaction descRel := ⟨fun _ _ _ h h' => le_trans h' h⟩

instance : IsAntisymm Transaction valueLt :=
  ⟨fun _ _ h h' => absurd (lt_trans h h') (lt_irrefl _)⟩

/-- Inserting an element that satisfies `p`, when everything strictly below
it (w.r.t. `r`) fails `p`, prepends it to the `p`-sublist. -/
theorem filter_orderedInsert_pos {α : Type} (r : α → α → Prop) [DecidableRel r]
    (p : α → Bool) (a : α) (hpa : p a = true)
    (h : ∀ b, ¬ r a b → p b = false) :
    ∀ l : List α, (l.orderedInsert r a).filter p = a :: l.filter p := by
  intro l
  induction l with
  | nil => simp [hpa]
  | cons b l ih =>
    by_cases hr : r a b
    · simp [List.orderedInsert, hr, List.filter_cons, hpa]
    · have hpb := h b hr
      simp [List.orderedInsert, hr, List.filter_cons, hpb, ih]

/-- Inserting an element that fails `p` leaves the `p`-sublist unchanged. -/
theorem filter_orderedInsert_neg {α : Type} (r : α → α → Prop) [DecidableRel r]
    (p : α → Bool) (a : α) (hpa : p a = false) :
    ∀ l : List α, (l.orderedInsert r a).filter p = l.filter p := by
  intro l
  induction l with
  | nil => simp [hpa]
  | cons b l ih =>
    by_cases hr : r a b <;> simp [List.orderedInsert, hr, List.filter_cons, hpa, ih]

/-- Stability of insertion sort: the sublist of elements satisfying `p` is
untouched, provided `p`-elements can only precede (w.r.t. `r`) non-`p`
elements. -/
theorem filter_insertionSort {α : Type} (r : α → α → Prop) [DecidableRel r]
    (p : α → Bool) (hcompat : ∀ a b, p a = true → ¬ r a b → p b = false) :
    ∀ l : List α, (l.insertionSort r).filter p = l.filter p := by
  intro l
  induction l with
  | nil => rfl
  | cons a l ih =>
    simp only [List.insertionSort]
    cases hpa : p a with
    | false =>
      rw [filter_orderedInsert_neg r p a hpa, ih]
      simp [List.filter_cons, hpa]
    | true =>
      rw [filter_orderedInsert_pos r p a hpa (fun b hb => hcompat a b hpa hb), ih]
      simp [List.filter_cons, hpa]

/-- C7: sorting by value returns a permutation of the input (a new list,
the input itself is untouched — the embedding is pure), sorted ascending or
descending as requested, stably: the records carrying any fixed value keep
their original relative order; and on value-distinct non-empty inputs the
descending result reversed is the ascending result. -/
theorem sort_by_value_spec (l : List Transaction) :
    List.Perm (sortTransactionsByValue l false) l
    ∧ List.Perm (sortTransactionsByValue l true) l
    ∧ List.Sorted ascRel (sortTransactionsByValue l false)
    ∧ List.Sorted descRel (sortTransactionsByValue l true)
    ∧ (∀ v : ℚ, (sortTransactionsByValue l false).filter (fun t => decide (t.value = v))
        = l.filter (fun t => decide (t.value = v)))
    ∧ (∀ v : ℚ, (sortTransactionsByValue l true).filter (fun t => decide (t.value = v))
        = l.filter (fun t => decide (t.value = v)))
    ∧ (l ≠ [] → (l.map Transaction.value).Nodup →
        (sortTransactionsByValue l true).reverse = sortTransactionsByValue l false) := by
  have hperm_asc : List.Perm (sortTransactionsByValue l false) l := by
    simpa [sortTransactionsByValue] using List.perm_insertionSort ascRel l
  have hperm_desc : List.Perm (sortTransactionsByValue l true) l := by
    simpa [sortTransactionsByValue] using List.perm_insertionSort descRel l
  have hsorted_asc : List.Sorted ascRel (sortTransactionsByValue l false) := by
    simpa [sortTransactionsByValue] using List.sorted_insertionSort ascRel l
  have hsorted_desc : List.Sorted descRel (sortTransactionsByValue l true) := by
    simpa [sortTransactionsByValue] using List.sorted_insertionSort descRel l
  refine ⟨hperm_asc, hperm_desc, hsorted_asc, hsorted_desc, ?_, ?_, ?_⟩
  · intro v
    have hc : ∀ a b : Transaction, decide (a.value = v) = true →
        ¬ ascRel a b → decide (b.value = v) = false := by
      intro a b hpa hr
      have ha : a.value = v := of_decide_eq_true hpa
      have hb : b.value < a.value := lt_of_not_le hr
      exact decide_eq_false (by rw [← ha]; exact ne_of_lt hb)
    have := filter_insertionSort ascRel (fun t => decide (t.value = v)) hc l
    simpa [sortTransactionsByValue] using this
  · intro v
    have hc : ∀ a b : Transaction, decide (a.value = v) = true →
        ¬ descRel a b → decide (b.value = v) = false := by
      intro a b hpa hr
      have ha : a.value = v := of_decide_eq_true hpa
      have hb : a.value < b.value := lt_of_not_le hr
      exact decide_eq_false (by rw [← ha]; exact ne_of_gt hb)
    have := filter_insertionSort descRel (fun t => decide (t.value = v)) hc l
    simpa [sortTransactionsByValue] using this
  · intro _ hnd
    have hpl : l.Pairwise (fun a b => a.value ≠ b.value) := by
      simpa [List.Nodup, List.pairwise_map] using hnd
    have hanti : ∀ l' : List Transaction, List.Perm l' l →
        l'.Pairwise (fun a b => a.value ≠ b.value) :=
      fun _ hp => (hp.pairwise_iff (fun hab => Ne.symm hab)).mpr hpl
    have hsorted_asc_lt : (sortTransactionsByValue l false).Pairwise valueLt :=
      ((hsorted_asc.and (hanti _ hperm_asc)).imp
        fun hab => lt_of_le_of_ne hab.1 hab.2)
    have hsorted_rev_lt : (sortTransactionsByValue l true).reverse.Pairwise valueLt := by
      rw [List.pairwise_reverse]
      exact (hsorted_desc.and (hanti _ hperm_desc)).imp
        fun hab => lt_of_le_of_ne hab.1 hab.2.symm
    have hperm2 : List.Perm (sortTransactionsByValue l true).reverse
        (sortTransactionsByValue l false) :=
      ((sortTransactionsByValue l true).reverse_perm.trans hperm_desc).trans hperm_asc.symm
    exact List.eq_of_perm_of_sorted hperm2 hsorted_rev_lt hsorted_asc_lt

/-- C7, witness at a concrete two-record store with distinct values. -/
theorem sort_by_value_spec_witness :
    (sortTransactionsByValue [tA, tB] true).reverse = sortTransactionsByValue [tA, tB] false :=
  (sort_by_value_spec [tA, tB]).2.2.2.2.2.2 (by decide) (by decide)

/-- Reading a `bump`ed tally at the bumped key. -/
theorem bump_same (f : List Char → ℕ) (k : List Char) : bump f k k = f k + 1 := by
  simp [bump]

/-- Reading a `bump`ed tally at any other key. -/
theorem bump_ne (f : List Char → ℕ) (k c : List Char) (h : ¬ k = c) : bump f k c = f c := by
  have hc : ¬ c = k := fun hh => h hh.symm
  simp [bump, hc]

/-- The condition under which `get_category_counts` tallies a row in the
per-category import map under key `c`: stripped-lowered country match, stripped category
equal to `c` and inside the category set, stripped-lowered direction
"import". -/
def importCatRow (q c : List Char) (row : Row) : Bool :=
  decide (pyLower (pyStrip row.Country) = pyLower (pyStrip q))
    && decide (pyStrip row.Category = c)
    && decide (pyStrip row.Category ∈ PRODUCT_CATEGORIES)
    && decide (pyLower (pyStrip row.Import_Export) = "import".toList)

/-- Export analogue of `importCatRow`. -/
def exportCatRow (q c : List Char) (row : Row) : Bool :=
  decide (pyLower (pyStrip row.Country) = pyLower (pyStrip q))
    && decide (pyStrip row.Category = c)
    && decide (pyStrip row.Category ∈ PRODUCT_CATEGORIES)
    && decide (pyLower (pyStrip row.Import_Export) = "export".toList)

/-- Pointwise effect of one `get_category_counts` loop iteration. -/
theorem categoryCountsStep_apply (q : List Char)
    (acc : (List Char → ℕ) × (List Char → ℕ)) (row : Row) (c : List Char) :
    (categoryCountsStep q acc row).1 c
      = acc.1 c + (if importCatRow q c row then 1 else 0)
    ∧ (categoryCountsStep q acc row).2 c
      = acc.2 c + (if exportCatRow q c row then 1 else 0) := by
  have hie : ¬ (("import".toList : List Char) = "export".toList) := by decide
  constructor <;>
    (simp only [categoryCountsStep, importCatRow, exportCatRow]
     split_ifs <;> simp_all [bump_same, bump_ne])

/-- Folding the `get_category_counts` loop counts matching rows. -/
theorem getCategoryCounts_foldl (q : List Char) :
    ∀ (rows : List Row) (acc : (List Char → ℕ) × (List Char → ℕ)) (c : List Char),
      ((rows.foldl (categoryCountsStep q) acc).1 c
        = acc.1 c + rows.countP (importCatRow q c))
      ∧ ((rows.foldl (categoryCountsStep q) acc).2 c
        = acc.2 c + rows.countP (exportCatRow q c)) := by
  intro rows
  induction rows with
  | nil => intro acc c; simp
  | cons row rows ih =>
    intro acc c
    have hstep := categoryCountsStep_apply q acc row c
    constructor
    · rw [List.foldl_cons, (ih _ c).1, hstep.1, List.countP_cons]
      omega
    · rw [List.foldl_cons, (ih _ c).2, hstep.2, List.countP_cons]
      omega

/-- A row whose category carries surrounding whitespace: not a member of
the category set, yet counted (under the stripped key). -/
def rowPadToys : Row :=
  { Country := "USA".toList, Category := " Toys ".toList, Import_Export := "import".toList }

/-- A row whose direction carries surrounding whitespace and capitals. -/
def rowPadDir : Row :=
  { Country := "USA".toList, Category := "Toys".toList, Import_Export := " Import ".toList }

/-- C9, counterexample: a row whose category string `" Toys "` is not in the
five-element set is still tallied (the code strips it first), and a row
whose direction `" Import "` is not the literal `"import"` even
case-insensitively is still counted as an import. -/
theorem category_counts_literal_counterexample :
    (getCategoryCounts [rowPadToys] ("USA".toList)).1 ("Toys".toList) = 1
    ∧ rowPadToys.Category ∉ PRODUCT_CATEGORIES
    ∧ (getCategoryCounts [rowPadDir] ("USA".toList)).1 ("Toys".toList) = 1
    ∧ pyLower rowPadDir.Import_Export ≠ "import".toList :=
  ⟨rfl, by decide, rfl, by decide⟩

/-- C9 (amended): a row is tallied in the import (resp. export) map under
key `c` exactly when its stripped-lowered country matches, its stripped
category equals `c` and lies in the fixed five-element set, and its
stripped-lowered direction is `"import"` (resp. `"export"`); any other row
contributes to neither map. -/
theorem category_counts_characterization (rows : List Row) (q c : List Char) :
    (getCategoryCounts rows q).1 c = rows.countP (importCatRow q c)
    ∧ (getCategoryCounts rows q).2 c = rows.countP (exportCatRow q c) := by
  have h := getCategoryCounts_foldl q rows (fun _ => 0, fun _ => 0) c
  simpa [getCategoryCounts] using h

/-- The condition under which `get_imports_exports_per_country` counts a
row as an import. -/
def importDirMatch (q : List Char) (row : Row) : Bool :=
  decide (pyLower (pyStrip row.Country) = pyLower (pyStrip q))
    && decide (pyLower (pyStrip row.Import_Export) = "import".toList)

/-- Export analogue of `importDirMatch`. -/
def exportDirMatch (q : List Char) (row : Row) : Bool :=
  decide (pyLower (pyStrip row.Country) = pyLower (pyStrip q))
    && decide (pyLower (pyStrip row.Import_Export) = "export".toList)

/-- Pointwise effect of one `get_imports_exports_per_country` iteration. -/
theorem perCountryStep_apply (q : List Char) (acc : ℕ × ℕ) (row : Row) :
    (perCountryStep q acc row).1 = acc.1 + (if importDirMatch q row then 1 else 0)
    ∧ (perCountryStep q acc row).2 = acc.2 + (if exportDirMatch q row then 1 else 0) := by
  have hie : ¬ (("import".toList : List Char) = "export".toList) := by decide
  constructor <;>
    (simp only [perCountryStep, importDirMatch, exportDirMatch]
     split_ifs <;> simp_all)

/-- Folding the `get_imports_exports_per_country` loop counts matching
rows. -/
theorem getImportsExportsPerCountry_foldl (q : List Char) :
    ∀ (rows : List Row) (acc : ℕ × ℕ),
      (rows.foldl (perCountryStep q) acc).1 = acc.1 + rows.countP (importDirMatch q)
      ∧ (rows.foldl (perCountryStep q) acc).2 = acc.2 + rows.countP (exportDirMatch q) := by
  intro rows
  induction rows with
  | nil => intro acc; simp
  | cons row rows ih =>
    intro acc
    have hstep := perCountryStep_apply q acc row
    constructor
    · rw [List.foldl_cons, (ih _).1, hstep.1, List.countP_cons]
      omega
    · rw [List.foldl_cons, (ih _).2, hstep.2, List.countP_cons]
      omega

/-- The condition under which `get_total_import_export_counts` tallies a
row under the country key `c` as an import: the key is the stripped (not
lowercased) country. -/
def importKeyRow (c : List Char) (row : Row) : Bool :=
  decide (pyStrip row.Country = c)
    && decide (pyLower (pyStrip row.Import_Export) = "import".toList)

/-- Export analogue of `importKeyRow`. -/
def exportKeyRow (c : List Char) (row : Row) : Bool :=
  decide (pyStrip row.Country = c)
    && decide (pyLower (pyStrip row.Import_Export) = "export".toList)

/-- Pointwise effect of one `get_total_import_export_counts` iteration. -/
theorem totalCountsStep_apply (acc : (List Char → ℕ) × (List Char → ℕ))
    (row : Row) (c : List Char) :
    (totalCountsStep acc row).1 c = acc.1 c + (if importKeyRow c row then 1 else 0)
    ∧ (totalCountsStep acc row).2 c = acc.2 c + (if exportKeyRow c row then 1 else 0) := by
  have hie : ¬ (("import".toList : List Char) = "export".toList) := by decide
  constructor <;>
    (simp only [totalCountsStep, importKeyRow, exportKeyRow]
     split_ifs <;> simp_all [bump_same, bump_ne])

/-- Folding the `get_total_import_export_counts` loop counts matching
rows. -/
theorem getTotalImportExportCounts_foldl :
    ∀ (rows : List Row) (acc : (List Char → ℕ) × (List Char → ℕ)) (c : List Char),
      ((rows.foldl totalCountsStep acc).1 c = acc.1 c + rows.countP (importKeyRow c))
      ∧ ((rows.foldl totalCountsStep acc).2 c = acc.2 c + rows.countP (exportKeyRow c)) := by
  intro rows
  induction rows with
  | nil => intro acc c; simp
  | cons row rows ih =>
    intro acc c
    have hstep := totalCountsStep_apply acc row c
    constructor
    · rw [List.foldl_cons, (ih _ c).1, hstep.1, List.countP_cons]
      omega
    · rw [List.foldl_cons, (ih _ c).2, hstep.2, List.countP_cons]
      omega

/-- A row padded with whitespace in both the country and the direction. -/
def rowPadCountryDir : Row :=
  { Country := " USA ".toList, Category := "Toys".toList, Import_Export := " Import ".toList }

/-- C10: all three reporting functions compare countries and directions
after stripping surrounding whitespace and lowercasing (the per-country
totals key on the stripped country), so a stored country `" USA "` is
counted under the query `"usa"` and a direction `" Import "` counts as
an import. -/
theorem reporting_strips_and_lowercases :
    (∀ (rows : List Row) (q : List Char),
      (getImportsExportsPerCountry rows q).1 = rows.countP (importDirMatch q)
      ∧ (getImportsExportsPerCountry rows q).2 = rows.countP (exportDirMatch q))
    ∧ (∀ (rows : List Row) (c : List Char),
      (getTotalImportExportCounts rows).1 c = rows.countP (importKeyRow c)
      ∧ (getTotalImportExportCounts rows).2 c = rows.countP (exportKeyRow c))
    ∧ getImportsExportsPerCountry [rowPadCountryDir] ("usa".toList) = (1, 0)
    ∧ (getCategoryCounts [rowPadCountryDir] ("usa".toList)).1 ("Toys".toList) = 1
    ∧ (getTotalImportExportCounts [rowPadCountryDir]).1 ("USA".toList) = 1 := by
  refine ⟨?_, ?_, rfl, rfl, rfl⟩
  · intro rows q
    have h := getImportsExportsPerCountry_foldl q rows (0, 0)
    simpa [getImportsExportsPerCountry] using h
  · intro rows c
    have h := getTotalImportExportCounts_foldl rows (fun _ => 0, fun _ => 0) c
    simpa [getTotalImportExportCounts] using h
